import Mathlib

/-!
Shallow embedding of the snapchain proposer/storage core:
`src/consensus/proposer.rs`, `src/node/snapchain_node.rs`, and
`src/storage/store/shard.rs`.

Modelling conventions:
* Rust `Vec<u8>` byte strings become `List Nat`; `u64`/`u32` become `Nat`
  (overflow is irrelevant to the verified properties except where an
  explicit `< 2 ^ 64` bound appears).
* Protobuf messages (`ShardChunk`, `Block`, `FullProposal`, ...) become
  structures mirroring their fields; `Option` fields stay `Option`.
* `blake3::hash` and prost's `encode_to_vec` are cryptographic/serialisation
  collaborators outside this repository; they are carried as explicit
  function parameters (`HashModel`), never interpreted.
* Fallible operations return `Except`/`Option`; a Rust `unwrap` panic is
  modelled as `none`.
* The `BTreeMap` tables are modelled as association lists with
  insert-replace semantics; `mapErase` removes every binding of a key,
  which agrees with `BTreeMap::remove` because a `BTreeMap` never holds
  two bindings of the same key.
-/

namespace Snapchain

/-- Height (core/types): a shard index paired with a block number. -/
structure Height where
  shard_index : Nat
  block_number : Nat
deriving DecidableEq

/-- proto `ShardHeader`: parent hash, timestamp, height, shard root. -/
structure ShardHeader where
  parent_hash : List Nat
  timestamp : Nat
  height : Option Height
  shard_root : List Nat
deriving DecidableEq

/-- proto `ShardChunk`: header, hash, transactions (opaque ids), votes. -/
structure ShardChunk where
  header : Option ShardHeader
  hash : List Nat
  transactions : List Nat
  votes : Option Unit
deriving DecidableEq

/-- proto `BlockHeader`. -/
structure BlockHeader where
  parent_hash : List Nat
  chain_id : Nat
  version : Nat
  shard_headers_hash : List Nat
  validators_hash : List Nat
  timestamp : Nat
  height : Option Height
deriving DecidableEq

/-- proto `Block`. -/
structure Block where
  header : Option BlockHeader
  hash : List Nat
  validators : Option Unit
  votes : Option Unit
  shard_chunks : List ShardChunk
deriving DecidableEq

/-- The tagged payload of a `FullProposal` (proto oneof `proposed_value`). -/
inductive ProposedValue where
  | shard (chunk : ShardChunk)
  | block (b : Block)
deriving DecidableEq

/-- core/types `ShardHash`: hash bytes plus shard index, the proposal key. -/
structure ShardHash where
  hash : List Nat
  shard_index : Nat
deriving DecidableEq

/-- proto `FullProposal`. -/
structure FullProposal where
  height : Option Height
  round : Int
  proposed_value : Option ProposedValue
  proposer : List Nat
deriving DecidableEq

/-- malachite `Validity`. -/
inductive Validity where
  | valid
  | invalid
deriving DecidableEq

/-- Modelled from the spec: `FullProposal::shard_hash()` lives in
`src/core/types.rs`, which is not part of the corpus. Per the spec,
`shard_hash() = (hash of inner value, shard_index of height)`. The
defaults for an absent payload or height are never exercised: every call
site matches on the payload first. -/
def FullProposal.shard_hash (fp : FullProposal) : ShardHash :=
  { hash :=
      match fp.proposed_value with
      | some (.shard c) => c.hash
      | some (.block b) => b.hash
      | none => []
    shard_index := (fp.height.getD ⟨0, 0⟩).shard_index }

/-- Modelled from the spec: `FullProposal::shard_chunk()` (core/types, not
in the corpus) returns the inner chunk of a Shard-typed proposal. -/
def FullProposal.shard_chunk (fp : FullProposal) : Option ShardChunk :=
  match fp.proposed_value with
  | some (.shard c) => some c
  | _ => none

/-- Modelled from the spec: `FullProposal::block()` (core/types, not in
the corpus) returns the inner block of a Block-typed proposal. -/
def FullProposal.block (fp : FullProposal) : Option Block :=
  match fp.proposed_value with
  | some (.block b) => some b
  | _ => none

/-- Association-list model of `BTreeMap::insert`: replace the binding of
`k` if present, otherwise append it. -/
def mapInsert {α β : Type} [DecidableEq α] (k : α) (v : β) : List (α × β) → List (α × β)
  | [] => [(k, v)]
  | (k₂, v₂) :: rest => if k = k₂ then (k, v) :: rest else (k₂, v₂) :: mapInsert k v rest

/-- Association-list model of `BTreeMap::get`. -/
def mapLookup {α β : Type} [DecidableEq α] (k : α) : List (α × β) → Option β
  | [] => none
  | (k₂, v₂) :: rest => if k = k₂ then some v₂ else mapLookup k rest

/-- Association-list model of `BTreeMap::remove`: drops every binding of
`k` (a `BTreeMap` never holds two bindings of one key). -/
def mapErase {α β : Type} [DecidableEq α] (k : α) : List (α × β) → List (α × β)
  | [] => []
  | (k₂, v₂) :: rest => if k = k₂ then mapErase k rest else (k₂, v₂) :: mapErase k rest

/-! ## Storage layer: `src/storage/store/shard.rs` -/

/-- `u64::to_be_bytes` (storage/store/shard.rs line 38): the eight bytes
of `n`, most significant first. -/
def u64_to_be_bytes (n : Nat) : List Nat :=
  [n / 2 ^ 56 % 256, n / 2 ^ 48 % 256, n / 2 ^ 40 % 256, n / 2 ^ 32 % 256,
   n / 2 ^ 24 % 256, n / 2 ^ 16 % 256, n / 2 ^ 8 % 256, n % 256]

/-- `make_shard_key` (storage/store/shard.rs lines 33-41). The concrete
value of `RootPrefix::Shard as u8` lives in `storage/store/block.rs`,
which is not part of the corpus; it is carried as the parameter `rb`
(only that it is one fixed byte matters). -/
def make_shard_key (rb : Nat) (block_number : Nat) : List Nat :=
  rb :: u64_to_be_bytes block_number

/-- Strict lexicographic order on byte strings, as RocksDB orders keys. -/
def lexLt : List Nat → List Nat → Bool
  | [], [] => false
  | [], _ :: _ => true
  | _ :: _, [] => false
  | a :: as, b :: bs => if a < b then true else if a = b then lexLt as bs else false

/-- The database of one shard store: key/value pairs kept sorted by
`lexLt` on keys, as RocksDB stores them. `dbPut` is a single-put
transaction (`db.txn(); txn.put(...); db.commit(txn)`). -/
def dbPut : List (List Nat × List Nat) → List Nat → List Nat → List (List Nat × List Nat)
  | [], k, v => [(k, v)]
  | (k₂, v₂) :: rest, k, v =>
    if k = k₂ then (k, v) :: rest
    else if lexLt k k₂ then (k, v) :: (k₂, v₂) :: rest
    else (k₂, v₂) :: dbPut rest k v

/-- `ShardStorageError` (storage/store/shard.rs lines 12-25); the decode
variant stands for the prost error surfaced through the iterator closure. -/
inductive ShardStorageError where
  | shardMissingHeader
  | shardMissingHeight
  | decodeFailure
  | tooManyShardsInResult
deriving DecidableEq

/-- `put_shard_chunk` (storage/store/shard.rs lines 110-125): require the
header and its height, then atomically put the encoded chunk under
`make_shard_key(block_number)`. `enc` is prost's `encode_to_vec`. -/
def put_shard_chunk (enc : ShardChunk → List Nat) (rb : Nat)
    (db : List (List Nat × List Nat)) (shard_chunk : ShardChunk) :
    Except ShardStorageError (List (List Nat × List Nat)) :=
  match shard_chunk.header with
  | none => .error .shardMissingHeader
  | some header =>
    match header.height with
    | none => .error .shardMissingHeight
    | some height =>
      .ok (dbPut db (make_shard_key rb height.block_number) (enc shard_chunk))

/-- `get_last_shard_chunk` (storage/store/shard.rs lines 76-94): a
reverse range scan from `make_shard_key(0)` with page size 1, i.e. the
greatest entry whose key is not below the scan start, decoded by `dec`
(prost's `ShardChunk::decode`). -/
def get_last_shard_chunk (dec : List Nat → Option ShardChunk) (rb : Nat)
    (db : List (List Nat × List Nat)) : Except ShardStorageError (Option ShardChunk) :=
  match (db.filter (fun kv => ! lexLt kv.1 (make_shard_key rb 0))).getLast? with
  | none => .ok none
  | some kv =>
    match dec kv.2 with
    | none => .error .decodeFailure
    | some c => .ok (some c)

/-- `get_current_height` (storage/store/shard.rs lines 96-108). -/
def get_current_height (dec : List Nat → Option ShardChunk) (rb : Nat)
    (db : List (List Nat × List Nat)) : Except ShardStorageError (Option Nat) :=
  match get_last_shard_chunk dec rb db with
  | .error e => .error e
  | .ok none => .ok none
  | .ok (some shard_chunk) =>
    match shard_chunk.header with
    | none => .ok none
    | some header =>
      match header.height with
      | none => .ok none
      | some height => .ok (some height.block_number)

/-- `ShardStore::max_block_number` (storage/store/shard.rs lines 157-163). -/
def max_block_number (dec : List Nat → Option ShardChunk) (rb : Nat)
    (db : List (List Nat × List Nat)) : Except ShardStorageError Nat :=
  match get_current_height dec rb db with
  | .error e => .error e
  | .ok none => .ok 0
  | .ok (some height) => .ok height

/-! ## Engines: the state-transition boundary

`src/storage/store/engine.rs` is not part of the corpus; the engines are
modelled from the spec (section 4.1). -/

/-- `ShardStateChange` (storage/store/engine.rs, reconstructed from its
uses in proposer.rs): shard id, resulting state root, transactions. -/
structure ShardStateChange where
  shard_id : Nat
  new_state_root : List Nat
  transactions : List Nat
deriving DecidableEq

/-- Modelled from the spec: the `ShardEngine` (engine.rs is not in the
corpus). `propose_fn` is the deterministic `propose_state_change` over
committed state plus pending pool; `validate_fn` the deterministic
re-execution check of `validate_state_change` (non-suspending, pure with
respect to I/O per spec section 5); `committed` the persistent log that
`commit_shard_chunk` appends to. -/
structure ShardEngine where
  propose_fn : Nat → ShardStateChange
  validate_fn : ShardStateChange → Bool
  committed : List ShardChunk

/-- `ShardEngine::propose_state_change`. -/
def ShardEngine.propose_state_change (e : ShardEngine) (shard_id : Nat) : ShardStateChange :=
  e.propose_fn shard_id

/-- `ShardEngine::validate_state_change`. -/
def ShardEngine.validate_state_change (e : ShardEngine) (s : ShardStateChange) : Bool :=
  e.validate_fn s

/-- `ShardEngine::commit_shard_chunk`: persist the chunk. -/
def ShardEngine.commit_shard_chunk (e : ShardEngine) (c : ShardChunk) : ShardEngine :=
  { e with committed := e.committed ++ [c] }

/-- Modelled from the spec: the `BlockEngine` (engine.rs is not in the
corpus); `committed` is the persisted block log. -/
structure BlockEngine where
  committed : List Block

/-- `BlockEngine::get_last_block`: the most recently committed block. -/
def BlockEngine.get_last_block (e : BlockEngine) : Option Block :=
  e.committed.getLast?

/-- `BlockEngine::commit_block`: persist the block. -/
def BlockEngine.commit_block (e : BlockEngine) (b : Block) : BlockEngine :=
  { e with committed := e.committed ++ [b] }

/-- The serialisation and hashing collaborators (prost `encode_to_vec`
and `blake3::hash`), carried as parameters and never interpreted. -/
structure HashModel where
  encodeShardHeader : ShardHeader → List Nat
  encodeBlockHeader : BlockHeader → List Nat
  blake3 : List Nat → List Nat

/-! ## ShardProposer: `src/consensus/proposer.rs` lines 53-199 -/

/-- `ShardProposer` state. The outbound channel `tx_decision` is
modelled by the list of chunks sent so far (`none` when no channel is
configured). -/
structure ShardProposer where
  shard_id : Nat
  address : List Nat
  chunks : List ShardChunk
  proposed_chunks : List (ShardHash × FullProposal)
  tx_decision : Option (List ShardChunk)
  engine : ShardEngine

/-- `ShardProposer::publish_new_shard_chunk` (proposer.rs lines 79-83). -/
def ShardProposer.publish_new_shard_chunk (s : ShardProposer) (c : ShardChunk) : ShardProposer :=
  { s with tx_decision := s.tx_decision.map (fun sent => sent ++ [c]) }

/-- `ShardProposer::propose_value` (proposer.rs lines 87-133). `now` is
`current_time()`. The discarded `timeout` argument is omitted. -/
def ShardProposer.propose_value (hm : HashModel) (now : Nat) (s : ShardProposer)
    (height : Height) (round : Int) : ShardProposer × FullProposal :=
  let previous_chunk := s.chunks.getLast?
  let parent_hash :=
    match previous_chunk with
    | some chunk => chunk.hash
    | none => [0, 32]
  let state_change := s.engine.propose_state_change s.shard_id
  let shard_header : ShardHeader :=
    { parent_hash := parent_hash
      timestamp := now
      height := some height
      shard_root := state_change.new_state_root }
  let hash := hm.blake3 (hm.encodeShardHeader shard_header)
  let chunk : ShardChunk :=
    { header := some shard_header
      hash := hash
      transactions := state_change.transactions
      votes := none }
  let shard_hash : ShardHash := { hash := hash, shard_index := height.shard_index }
  let proposal : FullProposal :=
    { height := some height
      round := round
      proposed_value := some (.shard chunk)
      proposer := s.address }
  ({ s with proposed_chunks := mapInsert shard_hash proposal s.proposed_chunks }, proposal)

/-- `ShardProposer::add_proposed_value` (proposer.rs lines 135-155).
`none` models the `unwrap` panic on a Shard payload lacking a header or
height; note the source inserts into `proposed_chunks` before those
unwraps. -/
def ShardProposer.add_proposed_value (s : ShardProposer) (fp : FullProposal) :
    Option (ShardProposer × Validity) :=
  match fp.proposed_value with
  | some (.shard chunk) =>
    let s₁ := { s with proposed_chunks := mapInsert fp.shard_hash fp s.proposed_chunks }
    match chunk.header with
    | none => none
    | some header =>
      match header.height with
      | none => none
      | some ht =>
        let state : ShardStateChange :=
          { shard_id := ht.shard_index
            new_state_root := header.shard_root
            transactions := chunk.transactions }
        some (s₁, if s₁.engine.validate_state_change state then .valid else .invalid)
  | _ => some (s, .invalid)

/-- `ShardProposer::decide` (proposer.rs lines 157-166): absent hash is a
no-op; otherwise publish, append to the recent-chunks tail, commit to
the engine, and evict. `none` models the `unwrap` panic on a stored
non-Shard proposal (no call site ever stores one). -/
def ShardProposer.decide (s : ShardProposer) (value : ShardHash) : Option ShardProposer :=
  match mapLookup value s.proposed_chunks with
  | none => some s
  | some proposal =>
    match proposal.shard_chunk with
    | none => none
    | some chunk =>
      let s₁ := s.publish_new_shard_chunk chunk
      let s₂ := { s₁ with chunks := s₁.chunks ++ [chunk] }
      let s₃ := { s₂ with engine := s₂.engine.commit_shard_chunk chunk }
      some { s₃ with proposed_chunks := mapErase value s₃.proposed_chunks }

/-! ## BlockProposer: `src/consensus/proposer.rs` lines 222-412 -/

/-- `BlockProposer` state. The inbound fan-in channel
`shard_decision_rx` is modelled as the stream of poll-tick outcomes the
select loop will observe: one entry per 10 ms tick, `some c` when
`try_recv` yields a chunk and `none` when it would return empty; the end
of the list is the collection deadline firing. `block_tx` is the list of
blocks published so far. -/
structure BlockProposer where
  shard_id : Nat
  address : List Nat
  proposed_blocks : List (ShardHash × FullProposal)
  pending_chunks : Nat → List ShardChunk
  shard_decision_rx : List (Option ShardChunk)
  num_shards : Nat
  block_tx : List Block
  engine : BlockEngine

/-- One poll tick of the collection loop (proposer.rs lines 268-284):
index a received chunk into `pending_chunks` under its block number.
`contains_key`-then-`push` versus `insert [chunk]` both append to the
(possibly empty) existing list, so the map is carried as a total
function with `[]` for absent keys — the source never maps a key to an
empty vector. `none` models the `unwrap` panic on a chunk without
header or height. -/
def collectStep (pending : Nat → List ShardChunk) :
    Option ShardChunk → Option (Nat → List ShardChunk)
  | none => some pending
  | some chunk =>
    match chunk.header with
    | none => none
    | some h =>
      match h.height with
      | none => none
      | some ht =>
        some (fun k => if k = ht.block_number then pending k ++ [chunk] else pending k)

/-- The `select!` loop of `collect_confirmed_shard_chunks` (proposer.rs
lines 265-290): consume poll ticks until `pending_chunks[req]` reaches
`ns` entries (returning the unconsumed remainder of the stream) or the
tick stream is exhausted, which is the deadline firing. -/
def collectLoop (ns req : Nat) :
    List (Option ShardChunk) → (Nat → List ShardChunk) →
    Option ((Nat → List ShardChunk) × List (Option ShardChunk))
  | [], pending => some (pending, [])
  | t :: ts, pending =>
    match collectStep pending t with
    | none => none
    | some p₁ =>
      if (p₁ req).length = ns then some (p₁, ts)
      else collectLoop ns req ts p₁

/-- `BlockProposer::collect_confirmed_shard_chunks` (proposer.rs lines
254-297): run the loop, then return `pending_chunks[requested_height]`,
or the empty list when that key is absent. -/
def BlockProposer.collect_confirmed_shard_chunks (s : BlockProposer) (height : Height) :
    Option (BlockProposer × List ShardChunk) :=
  match collectLoop s.num_shards height.block_number s.shard_decision_rx s.pending_chunks with
  | none => none
  | some (p₁, rest) =>
    some ({ s with pending_chunks := p₁, shard_decision_rx := rest },
      p₁ height.block_number)

/-- `BlockProposer::publish_new_block` (proposer.rs lines 299-306). -/
def BlockProposer.publish_new_block (s : BlockProposer) (b : Block) : BlockProposer :=
  { s with block_tx := s.block_tx ++ [b] }

/-- `BlockProposer::propose_value` (proposer.rs lines 310-358). -/
def BlockProposer.propose_value (hm : HashModel) (now : Nat) (s : BlockProposer)
    (height : Height) (round : Int) : Option (BlockProposer × FullProposal) :=
  match s.collect_confirmed_shard_chunks height with
  | none => none
  | some (s₁, shard_chunks) =>
    let parent_hash :=
      match s₁.engine.get_last_block with
      | some b => b.hash
      | none => [0, 32]
    let block_header : BlockHeader :=
      { parent_hash := parent_hash
        chain_id := 0
        version := 0
        shard_headers_hash := []
        validators_hash := []
        timestamp := now
        height := some height }
    let hash := hm.blake3 (hm.encodeBlockHeader block_header)
    let block : Block :=
      { header := some block_header
        hash := hash
        validators := none
        votes := none
        shard_chunks := shard_chunks }
    let shard_hash : ShardHash := { hash := hash, shard_index := height.shard_index }
    let proposal : FullProposal :=
      { height := some height
        round := round
        proposed_value := some (.block block)
        proposer := s₁.address }
    some ({ s₁ with proposed_blocks := mapInsert shard_hash proposal s₁.proposed_blocks },
      proposal)

/-- `BlockProposer::add_proposed_value` (proposer.rs lines 360-368):
record Block-typed payloads, answer `Valid` unconditionally. -/
def BlockProposer.add_proposed_value (s : BlockProposer) (fp : FullProposal) :
    BlockProposer × Validity :=
  match fp.proposed_value with
  | some (.block _) =>
    ({ s with proposed_blocks := mapInsert fp.shard_hash fp s.proposed_blocks }, .valid)
  | _ => (s, .valid)

/-- `BlockProposer::decide` (proposer.rs lines 370-379): absent hash is
a no-op; otherwise commit the block, publish it, evict the proposal and
`pending_chunks[height.block_number]`. `none` models the `unwrap` panic
on a stored non-Block proposal (no call site ever stores one). -/
def BlockProposer.decide (s : BlockProposer) (height : Height) (value : ShardHash) :
    Option BlockProposer :=
  match mapLookup value s.proposed_blocks with
  | none => some s
  | some proposal =>
    match proposal.block with
    | none => none
    | some b =>
      let s₁ := { s with engine := s.engine.commit_block b }
      let s₂ := s₁.publish_new_block b
      let s₃ := { s₂ with proposed_blocks := mapErase value s₂.proposed_blocks }
      some { s₃ with
        pending_chunks := fun k => if k = height.block_number then [] else s₃.pending_chunks k }

/-! ## Node supervisor: `src/node/snapchain_node.rs` -/

/-- `SnapchainValidator` as built in `SnapchainNode::create` (the fields
the consensus parameters depend on). -/
structure SnapchainValidator where
  shard_id : Nat
  current_height : Nat
deriving DecidableEq

/-- `ConsensusParams` (the fields `SnapchainNode::create` computes from
persistent state; address and threshold parameters are constants of the
node and omitted). -/
structure ConsensusParams where
  start_height : Height
  initial_validator_set : List SnapchainValidator
deriving DecidableEq

/-- The per-shard consensus wiring of `SnapchainNode::create`
(snapchain_node.rs lines 61-78, and identically lines 123-141 with
`shard_id = 0` for the block shard): `current_height` is the store's
`max_block_number` with errors collapsed to 0, and the `ConsensusParams`
get `start_height = Height::new(shard_id, 1)`. -/
def shardConsensusSetup (max_bn : Except Unit Nat) (shard_id : Nat) : ConsensusParams :=
  let current_height :=
    match max_bn with
    | .error _ => 0
    | .ok height => height
  { start_height := ⟨shard_id, 1⟩
    initial_validator_set := [⟨shard_id, current_height⟩] }

/-! ## Concrete instances for evaluating the model -/

/-- A concrete instantiation of the serialisation collaborators, used
only to evaluate the model at concrete inputs. -/
def hashModelId : HashModel :=
  { encodeShardHeader := fun h => h.parent_hash ++ h.shard_root
    encodeBlockHeader := fun h => h.parent_hash
    blake3 := fun l => 9 :: l }

/-- A concrete shard engine. -/
def engineA : ShardEngine :=
  { propose_fn := fun sid => { shard_id := sid, new_state_root := [4], transactions := [6] }
    validate_fn := fun sc => sc.new_state_root == [4]
    committed := [] }

/-- A shard proposer at genesis: no previously committed chunk. -/
def genesisShardProposer : ShardProposer :=
  { shard_id := 1
    address := [8]
    chunks := []
    proposed_chunks := []
    tx_decision := some []
    engine := engineA }

/-- A block proposer at genesis: nothing persisted, the channel empty. -/
def genesisBlockProposer : BlockProposer :=
  { shard_id := 0
    address := [8]
    proposed_blocks := []
    pending_chunks := fun _ => []
    shard_decision_rx := []
    num_shards := 3
    block_tx := []
    engine := { committed := [] } }

/-- A concrete well-formed chunk at `(shard si, block bn)`. -/
def chunkAt (si bn tag : Nat) : ShardChunk :=
  { header := some { parent_hash := [], timestamp := 0, height := some ⟨si, bn⟩, shard_root := [4] }
    hash := [si, bn, tag]
    transactions := [6]
    votes := none }

/-- A concrete Shard-typed proposal wrapping `chunkAt`. -/
def shardProposalAt (si bn tag : Nat) : FullProposal :=
  { height := some ⟨si, bn⟩
    round := 0
    proposed_value := some (.shard (chunkAt si bn tag))
    proposer := [8] }

/-- A concrete block at block number `bn`. -/
def blockAt (bn : Nat) : Block :=
  { header := some
      { parent_hash := [], chain_id := 0, version := 0, shard_headers_hash := []
        validators_hash := [], timestamp := 0, height := some ⟨0, bn⟩ }
    hash := [0, bn]
    validators := none
    votes := none
    shard_chunks := [] }

/-- A concrete Block-typed proposal wrapping `blockAt`. -/
def blockProposalAt (bn : Nat) : FullProposal :=
  { height := some ⟨0, bn⟩
    round := 0
    proposed_value := some (.block (blockAt bn))
    proposer := [8] }

/-- A shard proposer holding one in-flight proposal under key `([9], 1)`. -/
def proposerWithOne : ShardProposer :=
  { genesisShardProposer with proposed_chunks := [(⟨[9], 1⟩, shardProposalAt 1 1 0)] }

/-- A block proposer holding one in-flight proposal under key `([9], 0)`. -/
def blockProposerWithOne : BlockProposer :=
  { genesisBlockProposer with proposed_blocks := [(⟨[9], 0⟩, blockProposalAt 1)] }

/-- The pending map holding exactly `chunkAt 1 1 0` under block 1. -/
def pendingOne : Nat → List ShardChunk :=
  fun k => if k = 1 then [chunkAt 1 1 0] else []

/-- Big-endian digit list of `n` in `w` base-256 digits, defined by
peeling the most significant digit; for `n < 256 ^ 8` it coincides with
`u64_to_be_bytes` (proved below) and supports induction on the width. -/
def beBytes : Nat → Nat → List Nat
  | 0, _ => []
  | w + 1, n => n / 256 ^ w :: beBytes w (n % 256 ^ w)

/-! ## Helper lemmas -/

theorem mapLookup_mapInsert {α β : Type} [DecidableEq α] (k : α) (v : β) :
    ∀ l : List (α × β), mapLookup k (mapInsert k v l) = some v := by
  intro l
  induction l with
  | nil => simp [mapInsert, mapLookup]
  | cons kv rest ih =>
    obtain ⟨k₂, v₂⟩ := kv
    by_cases h : k = k₂ <;> simp [mapInsert, mapLookup, h, ih]

theorem mapLookup_mapErase {α β : Type} [DecidableEq α] (k : α) :
    ∀ l : List (α × β), mapLookup k (mapErase k l) = none := by
  intro l
  induction l with
  | nil => simp [mapErase, mapLookup]
  | cons kv rest ih =>
    obtain ⟨k₂, v₂⟩ := kv
    by_cases h : k = k₂
    · subst h
      simp [mapErase, mapLookup, ih]
    · simp [mapErase, mapLookup, h, ih]

theorem dbPut_idem (k v : List Nat) :
    ∀ db : List (List Nat × List Nat), dbPut (dbPut db k v) k v = dbPut db k v := by
  intro db
  induction db with
  | nil => simp [dbPut]
  | cons kv rest ih =>
    obtain ⟨k₂, v₂⟩ := kv
    by_cases h1 : k = k₂
    · simp [dbPut, h1]
    · by_cases h2 : lexLt k k₂ = true
      · simp [dbPut, h1, h2]
      · simp [dbPut, h1, h2, ih]

theorem divmod_lt_iff (k qa ra qb rb : Nat) (_hk : 0 < k) (hra : ra < k) (hrb : rb < k) :
    k * qa + ra < k * qb + rb ↔ qa < qb ∨ (qa = qb ∧ ra < rb) := by
  rcases Nat.lt_trichotomy qa qb with h | h | h
  · refine iff_of_true ?_ (Or.inl h)
    calc k * qa + ra < k * qa + k := by omega
      _ = k * (qa + 1) := by ring
      _ ≤ k * qb := Nat.mul_le_mul_left k h
      _ ≤ k * qb + rb := Nat.le_add_right _ _
  · subst h
    rw [add_lt_add_iff_left]
    simp
  · refine iff_of_false ?_ ?_
    · have hlt : k * qb + rb < k * qa + ra := by
        calc k * qb + rb < k * qb + k := by omega
          _ = k * (qb + 1) := by ring
          _ ≤ k * qa := Nat.mul_le_mul_left k h
          _ ≤ k * qa + ra := Nat.le_add_right _ _
      omega
    · rintro (h₂ | ⟨h₂, _⟩) <;> omega

theorem beBytes_lt_iff : ∀ w a b : Nat, a < 256 ^ w → b < 256 ^ w →
    (lexLt (beBytes w a) (beBytes w b) = true ↔ a < b) := by
  intro w
  induction w with
  | zero =>
    intro a b ha hb
    have ha0 : a = 0 := by simpa [Nat.lt_one_iff] using ha
    have hb0 : b = 0 := by simpa [Nat.lt_one_iff] using hb
    subst ha0
    subst hb0
    simp [beBytes, lexLt]
  | succ w ih =>
    intro a b ha hb
    have hk : 0 < 256 ^ w := pow_pos (by norm_num) w
    have hra : a % 256 ^ w < 256 ^ w := Nat.mod_lt _ hk
    have hrb : b % 256 ^ w < 256 ^ w := Nat.mod_lt _ hk
    have key : a < b ↔ a / 256 ^ w < b / 256 ^ w ∨
        (a / 256 ^ w = b / 256 ^ w ∧ a % 256 ^ w < b % 256 ^ w) := by
      conv_lhs => rw [← Nat.div_add_mod a (256 ^ w), ← Nat.div_add_mod b (256 ^ w)]
      exact divmod_lt_iff _ _ _ _ _ hk hra hrb
    rcases Nat.lt_trichotomy (a / 256 ^ w) (b / 256 ^ w) with h | h | h
    · simp only [beBytes, lexLt, if_pos h]
      simpa [key] using Or.inl h
    · simp only [beBytes, lexLt]
      rw [if_neg (by omega), if_pos h, ih _ _ hra hrb, key]
      simp [h]
    · simp only [beBytes, lexLt]
      rw [if_neg (by omega), if_neg (by omega), key]
      constructor
      · intro hF
        cases hF
      · rintro (h₂ | ⟨h₂, _⟩) <;> omega

theorem beBytes_eight (n : Nat) (h : n < 2 ^ 64) : beBytes 8 n = u64_to_be_bytes n := by
  simp only [beBytes, u64_to_be_bytes, List.cons.injEq, and_true]
  norm_num
  omega

theorem lexLt_u64_of_lt (a b : Nat) (hb : b < 2 ^ 64) (hab : a < b) :
    lexLt (u64_to_be_bytes a) (u64_to_be_bytes b) = true := by
  have ha : a < 2 ^ 64 := lt_trans hab hb
  have h256 : (2 : Nat) ^ 64 = 256 ^ 8 := by norm_num
  rw [← beBytes_eight a ha, ← beBytes_eight b hb]
  exact (beBytes_lt_iff 8 a b (h256 ▸ ha) (h256 ▸ hb)).mpr hab

theorem collectStep_mono (pending : Nat → List ShardChunk) (t : Option ShardChunk)
    (p₁ : Nat → List ShardChunk) (h : collectStep pending t = some p₁) :
    ∀ b, ∃ extra, p₁ b = pending b ++ extra := by
  intro b
  cases t with
  | none =>
    cases h
    exact ⟨[], by simp⟩
  | some c =>
    cases hh : c.header with
    | none => simp only [collectStep, hh] at h; cases h
    | some hd =>
      cases hht : hd.height with
      | none => simp only [collectStep, hh, hht] at h; cases h
      | some ht =>
        simp only [collectStep, hh, hht] at h
        cases h
        by_cases hb : b = ht.block_number
        · exact ⟨[c], by simp [hb]⟩
        · exact ⟨[], by simp [hb]⟩

theorem collectStep_some_chunk (pending : Nat → List ShardChunk) (c : ShardChunk)
    (p₁ : Nat → List ShardChunk) (h : collectStep pending (some c) = some p₁) :
    ∃ hh ht, c.header = some hh ∧ hh.height = some ht ∧
      p₁ = fun k => if k = ht.block_number then pending k ++ [c] else pending k := by
  cases hh : c.header with
  | none => simp only [collectStep, hh] at h; cases h
  | some hd =>
    cases hht : hd.height with
    | none => simp only [collectStep, hh, hht] at h; cases h
    | some ht =>
      simp only [collectStep, hh, hht] at h
      cases h
      exact ⟨hd, ht, rfl, hht, rfl⟩

theorem collectLoop_mono (ns req : Nat) : ∀ (ts : List (Option ShardChunk))
    (pending res : Nat → List ShardChunk) (rest : List (Option ShardChunk)),
    collectLoop ns req ts pending = some (res, rest) →
    ∀ b, ∃ extra, res b = pending b ++ extra := by
  intro ts
  induction ts with
  | nil =>
    intro pending res rest h b
    rw [collectLoop] at h
    cases h
    exact ⟨[], by simp⟩
  | cons t ts ih =>
    intro pending res rest h b
    cases hs : collectStep pending t with
    | none => simp only [collectLoop, hs] at h; cases h
    | some p₁ =>
      simp only [collectLoop, hs] at h
      by_cases hlen : (p₁ req).length = ns
      · rw [if_pos hlen] at h
        cases h
        exact collectStep_mono pending t _ hs b
      · rw [if_neg hlen] at h
        obtain ⟨e₁, he₁⟩ := collectStep_mono pending t p₁ hs b
        obtain ⟨e₂, he₂⟩ := ih p₁ res rest h b
        exact ⟨e₁ ++ e₂, by rw [he₂, he₁, List.append_assoc]⟩

theorem collectLoop_rest_le (ns req : Nat) : ∀ (ts : List (Option ShardChunk))
    (pending res : Nat → List ShardChunk) (rest : List (Option ShardChunk)),
    collectLoop ns req ts pending = some (res, rest) → rest.length ≤ ts.length := by
  intro ts
  induction ts with
  | nil =>
    intro pending res rest h
    rw [collectLoop] at h
    cases h
    exact le_refl _
  | cons t ts ih =>
    intro pending res rest h
    cases hs : collectStep pending t with
    | none => simp only [collectLoop, hs] at h; cases h
    | some p₁ =>
      simp only [collectLoop, hs] at h
      by_cases hlen : (p₁ req).length = ns
      · rw [if_pos hlen] at h
        cases h
        simp
      · rw [if_neg hlen] at h
        exact le_trans (ih p₁ res rest h) (by simp)

theorem collectLoop_consumed (ns req : Nat) : ∀ (ts : List (Option ShardChunk))
    (pending res : Nat → List ShardChunk) (rest : List (Option ShardChunk)),
    collectLoop ns req ts pending = some (res, rest) →
    ∀ c, some c ∈ ts.take (ts.length - rest.length) →
      ∃ hh ht, c.header = some hh ∧ hh.height = some ht ∧ c ∈ res ht.block_number := by
  intro ts
  induction ts with
  | nil =>
    intro pending res rest h c hc
    simp at hc
  | cons t ts ih =>
    intro pending res rest h c hc
    cases hs : collectStep pending t with
    | none => simp only [collectLoop, hs] at h; cases h
    | some p₁ =>
      simp only [collectLoop, hs] at h
      by_cases hlen : (p₁ req).length = ns
      · rw [if_pos hlen] at h
        cases h
        have htake : (t :: ts).take ((t :: ts).length - ts.length) = [t] := by
          simp
        rw [htake] at hc
        simp only [List.mem_singleton] at hc
        subst hc
        obtain ⟨hh, ht, h1, h2, rfl⟩ := collectStep_some_chunk pending c _ hs
        exact ⟨hh, ht, h1, h2, by simp⟩
      · rw [if_neg hlen] at h
        have hr := collectLoop_rest_le ns req ts p₁ res rest h
        have htake : (t :: ts).take ((t :: ts).length - rest.length) =
            t :: ts.take (ts.length - rest.length) := by
          simp only [List.length_cons]
          rw [Nat.succ_sub hr]
          rfl
        rw [htake] at hc
        rcases List.mem_cons.mp hc with hc1 | hc2
        · rw [← hc1] at hs
          obtain ⟨hh, ht, h1, h2, rfl⟩ := collectStep_some_chunk pending c p₁ hs
          refine ⟨hh, ht, h1, h2, ?_⟩
          obtain ⟨extra, he⟩ := collectLoop_mono ns req ts _ res rest h ht.block_number
          rw [he]
          simp
        · exact ih p₁ res rest h c hc2

theorem lexLt_cons_same (x : Nat) (xs ys : List Nat) :
    lexLt (x :: xs) (x :: ys) = lexLt xs ys := by
  simp [lexLt]

/-! ## Claim theorems -/

/-- C1 (code bug): at genesis — no previously committed chunk for the
shard proposer, no previously committed block for the block proposer —
`propose_value` sets `parent_hash` to the two-byte vector `[0, 32]`
(the source's `vec![0, 32]`), which is not 32 zero bytes. -/
theorem c1_genesis_parent_hash_is_two_bytes :
    (∃ chunk header,
      (ShardProposer.propose_value hashModelId 0 genesisShardProposer ⟨1, 1⟩ 0).2.proposed_value =
        some (.shard chunk) ∧
      chunk.header = some header ∧
      header.parent_hash = [0, 32] ∧
      header.parent_hash ≠ List.replicate 32 0) ∧
    (∃ p b bheader,
      BlockProposer.propose_value hashModelId 0 genesisBlockProposer ⟨0, 1⟩ 0 = some p ∧
      p.2.proposed_value = some (.block b) ∧
      b.header = some bheader ∧
      bheader.parent_hash = [0, 32] ∧
      bheader.parent_hash ≠ List.replicate 32 0) := by
  constructor
  · exact ⟨_, _, rfl, rfl, rfl, by decide⟩
  · exact ⟨_, _, _, rfl, rfl, rfl, rfl, by decide⟩

/-- C2 counterexample: with a persisted max block number of 5 the claim
requires `start_height = (shard, 6)`, but `SnapchainNode::create` passes
`start_height = (shard, 1)`. -/
theorem c2_start_height_counterexample :
    ¬ (shardConsensusSetup (.ok 5) 1).start_height = ⟨1, 5 + 1⟩ := by
  decide

/-- C2 amended: the `ConsensusParams` handed to each consensus actor
always carry `start_height = (shard, 1)`; the max persisted block number
(0 when nothing is persisted or the read fails) is passed instead as the
`current_height` of the initial validator set's self entry. -/
theorem c2_start_height_always_one (max_bn : Except Unit Nat) (shard_id : Nat) :
    (shardConsensusSetup max_bn shard_id).start_height = ⟨shard_id, 1⟩ ∧
    (shardConsensusSetup max_bn shard_id).initial_validator_set =
      [⟨shard_id, match max_bn with | .error _ => 0 | .ok height => height⟩] := by
  cases max_bn <;> exact ⟨rfl, rfl⟩

/-- C8: committing the same well-formed chunk twice is idempotent — the
second `put_shard_chunk` returns the store unchanged, and
`max_block_number` is unchanged by the second call. -/
theorem c8_put_shard_chunk_idempotent (enc : ShardChunk → List Nat)
    (dec : List Nat → Option ShardChunk) (rb : Nat)
    (db db₁ : List (List Nat × List Nat)) (c : ShardChunk)
    (h : put_shard_chunk enc rb db c = .ok db₁) :
    put_shard_chunk enc rb db₁ c = .ok db₁ ∧
    ∀ db₂, put_shard_chunk enc rb db₁ c = .ok db₂ →
      db₂ = db₁ ∧ max_block_number dec rb db₂ = max_block_number dec rb db₁ := by
  cases hh : c.header with
  | none =>
    simp only [put_shard_chunk, hh] at h
    cases h
  | some header =>
    cases hht : header.height with
    | none =>
      simp only [put_shard_chunk, hh, hht] at h
      cases h
    | some height =>
      simp only [put_shard_chunk, hh, hht] at h ⊢
      cases h
      constructor
      · rw [dbPut_idem]
      · intro db₂ h₂
        rw [dbPut_idem] at h₂
        cases h₂
        exact ⟨rfl, rfl⟩

/-- C8 witness: the theorem applied to the empty store and a concrete
well-formed chunk. -/
theorem c8_witness :
    put_shard_chunk (fun c => c.hash) 2 [(make_shard_key 2 1, [1, 1, 0])] (chunkAt 1 1 0) =
      .ok [(make_shard_key 2 1, [1, 1, 0])] ∧
    ∀ db₂,
      put_shard_chunk (fun c => c.hash) 2 [(make_shard_key 2 1, [1, 1, 0])] (chunkAt 1 1 0) =
        .ok db₂ →
      db₂ = [(make_shard_key 2 1, [1, 1, 0])] ∧
      max_block_number (fun _ => none) 2 db₂ =
        max_block_number (fun _ => none) 2 [(make_shard_key 2 1, [1, 1, 0])] :=
  c8_put_shard_chunk_idempotent (fun c => c.hash) (fun _ => none) 2 []
    [(make_shard_key 2 1, [1, 1, 0])] (chunkAt 1 1 0) rfl

/-- C9: `make_shard_key` is the shard root byte followed by the block
number's eight big-endian bytes (nine bytes in total), and for block
numbers `a < b` (`b` a `u64`) the keys are strictly increasing in
lexicographic byte order. -/
theorem c9_make_shard_key_layout_and_order (rb a b : Nat) (hab : a < b) (hb : b < 2 ^ 64) :
    make_shard_key rb a = rb :: u64_to_be_bytes a ∧
    (u64_to_be_bytes a).length = 8 ∧
    (make_shard_key rb a).length = 9 ∧
    lexLt (make_shard_key rb a) (make_shard_key rb b) = true := by
  refine ⟨rfl, rfl, rfl, ?_⟩
  show lexLt (rb :: u64_to_be_bytes a) (rb :: u64_to_be_bytes b) = true
  rw [lexLt_cons_same]
  exact lexLt_u64_of_lt a b hb hab

/-- C9 witness: the theorem applied at root byte 5 and block numbers
3 < 7. -/
theorem c9_witness :
    make_shard_key 5 3 = 5 :: u64_to_be_bytes 3 ∧
    (u64_to_be_bytes 3).length = 8 ∧
    (make_shard_key 5 3).length = 9 ∧
    lexLt (make_shard_key 5 3) (make_shard_key 5 7) = true :=
  c9_make_shard_key_layout_and_order 5 3 7 (by decide) (by norm_num)

/-- C7: `ShardProposer::propose_value` returns a Shard-typed proposal
wrapping a chunk whose header carries the requested height and the
engine's `new_state_root` as `shard_root`, whose hash is BLAKE3 of the
encoded header, and the proposal is recorded in the proposed table under
the `ShardHash (hash, height.shard_index)` before returning. -/
theorem c7_shard_propose_value (hm : HashModel) (now : Nat) (s : ShardProposer)
    (height : Height) (round : Int) :
    ∃ chunk header,
      (ShardProposer.propose_value hm now s height round).2.proposed_value =
        some (.shard chunk) ∧
      chunk.header = some header ∧
      header.height = some height ∧
      header.shard_root = (s.engine.propose_state_change s.shard_id).new_state_root ∧
      chunk.hash = hm.blake3 (hm.encodeShardHeader header) ∧
      chunk.transactions = (s.engine.propose_state_change s.shard_id).transactions ∧
      mapLookup ⟨chunk.hash, height.shard_index⟩
          (ShardProposer.propose_value hm now s height round).1.proposed_chunks =
        some (ShardProposer.propose_value hm now s height round).2 := by
  refine ⟨_, _, rfl, rfl, rfl, rfl, rfl, rfl, ?_⟩
  exact mapLookup_mapInsert _ _ _

/-- C10: `BlockProposer::add_proposed_value` answers `Valid` for every
proposal whatsoever; only Block-typed payloads are recorded in the
proposed-blocks table, so a non-Block proposal is reported Valid while
the proposer state is unchanged. -/
theorem c10_block_add_proposed_value (s : BlockProposer) (fp : FullProposal) :
    (BlockProposer.add_proposed_value s fp).2 = Validity.valid ∧
    ((∀ b, fp.proposed_value ≠ some (.block b)) →
      (BlockProposer.add_proposed_value s fp).1 = s) ∧
    (∀ b, fp.proposed_value = some (.block b) →
      mapLookup fp.shard_hash (BlockProposer.add_proposed_value s fp).1.proposed_blocks =
        some fp) := by
  rcases hv : fp.proposed_value with _ | pv
  · refine ⟨?_, fun _ => ?_, fun b hb => ?_⟩
    · simp [BlockProposer.add_proposed_value, hv]
    · simp [BlockProposer.add_proposed_value, hv]
    · simp at hb
  · cases pv with
    | shard c =>
      refine ⟨?_, fun _ => ?_, fun b hb => ?_⟩
      · simp [BlockProposer.add_proposed_value, hv]
      · simp [BlockProposer.add_proposed_value, hv]
      · simp at hb
    | block b =>
      refine ⟨?_, fun hne => ?_, fun b₂ hb => ?_⟩
      · simp [BlockProposer.add_proposed_value, hv]
      · exact absurd rfl (hne b)
      · simp only [BlockProposer.add_proposed_value, hv]
        exact mapLookup_mapInsert _ _ _

/-- C10 witness: the theorem applied to a Shard-typed proposal (Valid,
state unchanged) and to a Block-typed proposal (Valid, recorded). -/
theorem c10_witness :
    (BlockProposer.add_proposed_value genesisBlockProposer (shardProposalAt 1 1 0)).2 =
      Validity.valid ∧
    (BlockProposer.add_proposed_value genesisBlockProposer (shardProposalAt 1 1 0)).1 =
      genesisBlockProposer ∧
    mapLookup (blockProposalAt 1).shard_hash
        (BlockProposer.add_proposed_value genesisBlockProposer (blockProposalAt 1)).1.proposed_blocks =
      some (blockProposalAt 1) :=
  ⟨(c10_block_add_proposed_value genesisBlockProposer (shardProposalAt 1 1 0)).1,
   (c10_block_add_proposed_value genesisBlockProposer (shardProposalAt 1 1 0)).2.1
     (by intro b hb; simp [shardProposalAt] at hb),
   (c10_block_add_proposed_value genesisBlockProposer (blockProposalAt 1)).2.2
     (blockAt 1) rfl⟩

/-- C4: `ShardProposer::add_proposed_value` answers, for a Shard-typed
proposal (with header and height present, as the source unwraps them),
`Valid` exactly when the engine validates the state change reconstructed
from the chunk — shard id from the header's height, new state root from
the header's `shard_root`, the chunk's transactions; any non-Shard
payload yields `Invalid`; and an `Invalid` result leaves persistent
storage (the engine's committed log) unchanged. -/
theorem c4_shard_add_proposed_value (s : ShardProposer) (fp : FullProposal) :
    (∀ chunk header ht, fp.proposed_value = some (.shard chunk) →
      chunk.header = some header → header.height = some ht →
      ShardProposer.add_proposed_value s fp =
        some ({ s with proposed_chunks := mapInsert fp.shard_hash fp s.proposed_chunks },
          if s.engine.validate_state_change
              { shard_id := ht.shard_index
                new_state_root := header.shard_root
                transactions := chunk.transactions }
            then Validity.valid else Validity.invalid)) ∧
    ((∀ chunk, fp.proposed_value ≠ some (.shard chunk)) →
      ShardProposer.add_proposed_value s fp = some (s, Validity.invalid)) ∧
    (∀ s₁ v, ShardProposer.add_proposed_value s fp = some (s₁, v) →
      v = Validity.invalid → s₁.engine.committed = s.engine.committed) := by
  rcases hv : fp.proposed_value with _ | pv
  · refine ⟨fun chunk header ht hc => ?_, fun _ => ?_, fun s₁ v h₁ _ => ?_⟩
    · simp at hc
    · simp [ShardProposer.add_proposed_value, hv]
    · simp only [ShardProposer.add_proposed_value, hv] at h₁
      cases h₁
      rfl
  · cases pv with
    | block b =>
      refine ⟨fun chunk header ht hc => ?_, fun _ => ?_, fun s₁ v h₁ _ => ?_⟩
      · simp at hc
      · simp [ShardProposer.add_proposed_value, hv]
      · simp only [ShardProposer.add_proposed_value, hv] at h₁
        cases h₁
        rfl
    | shard chunk =>
      refine ⟨fun chunk₂ header ht hc hh hht => ?_, fun hne => ?_, fun s₁ v h₁ _ => ?_⟩
      · simp only [Option.some.injEq, ProposedValue.shard.injEq] at hc
        subst hc
        simp only [ShardProposer.add_proposed_value, hv, hh, hht]
      · exact absurd rfl (hne chunk)
      · simp only [ShardProposer.add_proposed_value, hv] at h₁
        cases hh : chunk.header with
        | none =>
          simp only [hh] at h₁
          cases h₁
        | some header =>
          cases hht : header.height with
          | none =>
            simp only [hh, hht] at h₁
            cases h₁
          | some ht =>
            simp only [hh, hht] at h₁
            cases h₁
            rfl

/-- C4 witness: the theorem applied to a valid Shard-typed proposal, to
a Block-typed one, and the storage-preservation conjunct at the
Block-typed input. -/
theorem c4_witness :
    ShardProposer.add_proposed_value genesisShardProposer (shardProposalAt 1 1 0) =
      some ({ genesisShardProposer with
                proposed_chunks :=
                  mapInsert (shardProposalAt 1 1 0).shard_hash (shardProposalAt 1 1 0)
                    genesisShardProposer.proposed_chunks },
        if genesisShardProposer.engine.validate_state_change
            { shard_id := 1, new_state_root := [4], transactions := [6] }
          then Validity.valid else Validity.invalid) ∧
    ShardProposer.add_proposed_value genesisShardProposer (blockProposalAt 1) =
      some (genesisShardProposer, Validity.invalid) ∧
    genesisShardProposer.engine.committed = genesisShardProposer.engine.committed :=
  ⟨(c4_shard_add_proposed_value genesisShardProposer (shardProposalAt 1 1 0)).1
     (chunkAt 1 1 0) _ ⟨1, 1⟩ rfl rfl rfl,
   (c4_shard_add_proposed_value genesisShardProposer (blockProposalAt 1)).2.1
     (by intro chunk hc; simp [blockProposalAt] at hc),
   (c4_shard_add_proposed_value genesisShardProposer (blockProposalAt 1)).2.2
     genesisShardProposer Validity.invalid
     ((c4_shard_add_proposed_value genesisShardProposer (blockProposalAt 1)).2.1
       (by intro chunk hc; simp [blockProposalAt] at hc)) rfl⟩

/-- C5: `ShardProposer::decide` with an unknown shard hash is a no-op
leaving the whole proposer state (and hence storage) unchanged; with a
recorded (Shard-typed) proposal, the chunk is committed to the engine,
appended to the in-memory recent-chunks list, published on the outbound
channel when one is configured, and the entry is evicted from the
proposed table. -/
theorem c5_shard_decide_spec (s : ShardProposer) (value : ShardHash) :
    (mapLookup value s.proposed_chunks = none → ShardProposer.decide s value = some s) ∧
    (∀ fp chunk, mapLookup value s.proposed_chunks = some fp →
      fp.proposed_value = some (.shard chunk) →
      ∃ s₁, ShardProposer.decide s value = some s₁ ∧
        s₁.engine.committed = s.engine.committed ++ [chunk] ∧
        s₁.chunks = s.chunks ++ [chunk] ∧
        (∀ sent, s.tx_decision = some sent → s₁.tx_decision = some (sent ++ [chunk])) ∧
        (s.tx_decision = none → s₁.tx_decision = none) ∧
        mapLookup value s₁.proposed_chunks = none) := by
  constructor
  · intro h
    simp [ShardProposer.decide, h]
  · intro fp chunk hl hv
    have hsc : fp.shard_chunk = some chunk := by
      simp [FullProposal.shard_chunk, hv]
    simp only [ShardProposer.decide, hl, hsc]
    refine ⟨_, rfl, ?_, ?_, ?_, ?_, ?_⟩
    · simp [ShardEngine.commit_shard_chunk, ShardProposer.publish_new_shard_chunk]
    · simp [ShardProposer.publish_new_shard_chunk]
    · intro sent hts
      simp [ShardProposer.publish_new_shard_chunk, hts]
    · intro hts
      simp [ShardProposer.publish_new_shard_chunk, hts]
    · exact mapLookup_mapErase _ _

/-- C5 witness: the theorem's present-hash conjunct applied to a
proposer holding one in-flight proposal. -/
theorem c5_witness :
    ∃ s₁, ShardProposer.decide proposerWithOne ⟨[9], 1⟩ = some s₁ ∧
      s₁.engine.committed = proposerWithOne.engine.committed ++ [chunkAt 1 1 0] ∧
      s₁.chunks = proposerWithOne.chunks ++ [chunkAt 1 1 0] ∧
      (∀ sent, proposerWithOne.tx_decision = some sent →
        s₁.tx_decision = some (sent ++ [chunkAt 1 1 0])) ∧
      (proposerWithOne.tx_decision = none → s₁.tx_decision = none) ∧
      mapLookup ⟨[9], 1⟩ s₁.proposed_chunks = none :=
  (c5_shard_decide_spec proposerWithOne ⟨[9], 1⟩).2 (shardProposalAt 1 1 0) (chunkAt 1 1 0)
    rfl rfl

/-- C6: `BlockProposer::decide` with an unknown shard hash is a no-op;
with a recorded (Block-typed) proposal, the block is committed via the
block engine, published to the external block stream, the proposal is
evicted, and `pending_chunks[height.block_number]` is evicted. -/
theorem c6_block_decide_spec (s : BlockProposer) (height : Height) (value : ShardHash) :
    (mapLookup value s.proposed_blocks = none →
      BlockProposer.decide s height value = some s) ∧
    (∀ fp b, mapLookup value s.proposed_blocks = some fp →
      fp.proposed_value = some (.block b) →
      ∃ s₁, BlockProposer.decide s height value = some s₁ ∧
        s₁.engine.committed = s.engine.committed ++ [b] ∧
        s₁.block_tx = s.block_tx ++ [b] ∧
        mapLookup value s₁.proposed_blocks = none ∧
        s₁.pending_chunks height.block_number = []) := by
  constructor
  · intro h
    simp [BlockProposer.decide, h]
  · intro fp b hl hv
    have hb : fp.block = some b := by
      simp [FullProposal.block, hv]
    simp only [BlockProposer.decide, hl, hb]
    refine ⟨_, rfl, ?_, ?_, ?_, ?_⟩
    · simp [BlockEngine.commit_block, BlockProposer.publish_new_block]
    · simp [BlockProposer.publish_new_block]
    · exact mapLookup_mapErase _ _
    · simp

/-- C6 witness: the theorem's two conjuncts applied to a block proposer
holding one in-flight proposal. -/
theorem c6_witness :
    BlockProposer.decide blockProposerWithOne ⟨0, 1⟩ ⟨[7], 0⟩ = some blockProposerWithOne ∧
    ∃ s₁, BlockProposer.decide blockProposerWithOne ⟨0, 1⟩ ⟨[9], 0⟩ = some s₁ ∧
      s₁.engine.committed = blockProposerWithOne.engine.committed ++ [blockAt 1] ∧
      s₁.block_tx = blockProposerWithOne.block_tx ++ [blockAt 1] ∧
      mapLookup ⟨[9], 0⟩ s₁.proposed_blocks = none ∧
      s₁.pending_chunks (1 : Nat) = [] :=
  ⟨(c6_block_decide_spec blockProposerWithOne ⟨0, 1⟩ ⟨[7], 0⟩).1 (by decide),
   (c6_block_decide_spec blockProposerWithOne ⟨0, 1⟩ ⟨[9], 0⟩).2 (blockProposalAt 1)
     (blockAt 1) rfl rfl⟩

/-- C3: the collection loop returns `pending_chunks[height.block_number]`
as soon as that list's length equals `num_shards`, leaving later ticks
unconsumed; when the tick stream is exhausted (the deadline expiring) it
returns whatever is pending for that block number, possibly the empty
list; the returned list always is the final
`pending_chunks[requested_height]`; and no received chunk is discarded:
entries of `pending_chunks` are only ever extended, and every consumed
chunk — whatever its block number — ends up in `pending_chunks` under
its own block number. -/
theorem c3_collect_confirmed_shard_chunks_spec :
    (∀ (ns req : Nat) (t : Option ShardChunk) (ts : List (Option ShardChunk))
        (pending p₁ : Nat → List ShardChunk),
      collectStep pending t = some p₁ → (p₁ req).length = ns →
      collectLoop ns req (t :: ts) pending = some (p₁, ts)) ∧
    (∀ (ns req : Nat) (pending : Nat → List ShardChunk),
      collectLoop ns req [] pending = some (pending, [])) ∧
    (∀ (s : BlockProposer) (height : Height) (s₁ : BlockProposer)
        (chunks : List ShardChunk),
      BlockProposer.collect_confirmed_shard_chunks s height = some (s₁, chunks) →
      chunks = s₁.pending_chunks height.block_number) ∧
    (∀ (ns req : Nat) (ts : List (Option ShardChunk))
        (pending res : Nat → List ShardChunk) (rest : List (Option ShardChunk)),
      collectLoop ns req ts pending = some (res, rest) →
      ∀ b, ∃ extra, res b = pending b ++ extra) ∧
    (∀ (ns req : Nat) (ts : List (Option ShardChunk))
        (pending res : Nat → List ShardChunk) (rest : List (Option ShardChunk)),
      collectLoop ns req ts pending = some (res, rest) →
      ∀ c, some c ∈ ts.take (ts.length - rest.length) →
        ∃ hh ht, c.header = some hh ∧ hh.height = some ht ∧ c ∈ res ht.block_number) := by
  refine ⟨?_, ?_, ?_, collectLoop_mono, collectLoop_consumed⟩
  · intro ns req t ts pending p₁ hs hlen
    simp only [collectLoop, hs]
    rw [if_pos hlen]
  · intro ns req pending
    rfl
  · intro s height s₁ chunks h
    simp only [BlockProposer.collect_confirmed_shard_chunks] at h
    cases hl : collectLoop s.num_shards height.block_number s.shard_decision_rx
        s.pending_chunks with
    | none =>
      rw [hl] at h
      cases h
    | some pr =>
      obtain ⟨p₁, rest⟩ := pr
      rw [hl] at h
      cases h
      rfl

/-- C3 witness: the early-return conjunct and the retention conjunct
applied to a concrete run with `num_shards = 1`. -/
theorem c3_witness :
    collectLoop 1 1 [some (chunkAt 1 1 0), none] (fun _ => []) = some (pendingOne, [none]) ∧
    (∃ hh ht, (chunkAt 1 1 0).header = some hh ∧ hh.height = some ht ∧
      chunkAt 1 1 0 ∈ pendingOne ht.block_number) :=
  ⟨c3_collect_confirmed_shard_chunks_spec.1 1 1 (some (chunkAt 1 1 0)) [none]
     (fun _ => []) pendingOne rfl (by decide),
   c3_collect_confirmed_shard_chunks_spec.2.2.2.2 1 1 [some (chunkAt 1 1 0), none]
     (fun _ => []) pendingOne [none]
     (c3_collect_confirmed_shard_chunks_spec.1 1 1 (some (chunkAt 1 1 0)) [none]
       (fun _ => []) pendingOne rfl (by decide))
     (chunkAt 1 1 0) (by decide)⟩
